import Mathlib

/-!
Verification of the Game of Life engine in `src/lib.rs` (crate of the
WebAsmb_Tutorial repository).

The Rust code stores the universe as a flat `Vec<Cell>` with `u32`
dimensions.  We embed it shallowly: `Vec<Cell>` becomes `List Cell`,
`u32`/`usize` become `Nat` (no arithmetic here can overflow in the sizes
the claims quantify over), and operations that can panic in Rust
(out-of-bounds indexing in `toggle_cell`, `%` by a zero dimension in the
matched branches of `set_pattern`) return `Option Universe`, `none`
marking the panic.  Reads inside `tick` and `live_neighbor_count` use
`List.getD` with default `Cell.Dead`; whenever the dimension invariant
`cells.length = width * height` holds and both dimensions are positive,
every such index is in bounds, so the default is never consulted there.
-/

/-- `Cell` from the source: `Dead = 0`, `Alive = 1`. -/
inductive Cell where
  | Dead : Cell
  | Alive : Cell
deriving DecidableEq, Repr

/-- `Cell::toggle` from the source. -/
def Cell.toggle : Cell → Cell
  | Cell.Dead => Cell.Alive
  | Cell.Alive => Cell.Dead

/-- `cell as u8`: the numeric value summed by `live_neighbor_count`. -/
def Cell.val : Cell → Nat
  | Cell.Dead => 0
  | Cell.Alive => 1

/-- The `Universe` struct from the source. -/
structure Universe where
  width : Nat
  height : Nat
  cells : List Cell
deriving DecidableEq, Repr

namespace Universe

/-- The dimension invariant maintained by every operation
(`cells.len() == width * height`). -/
def Inv (u : Universe) : Prop := u.cells.length = u.width * u.height

instance (u : Universe) : Decidable u.Inv := by
  unfold Inv; infer_instance

/-- `Universe::get_index`: `(row * self.width + column) as usize`. -/
def get_index (u : Universe) (row column : Nat) : Nat :=
  row * u.width + column

/-- `Universe::new`: 64×64, cell at flat index `i` is `Alive` iff
`i % 2 == 0 || i % 7 == 0`. -/
def new : Universe :=
  { width := 64
    height := 64
    cells := (List.range (64 * 64)).map fun i =>
      if i % 2 = 0 || i % 7 = 0 then Cell.Alive else Cell.Dead }

/-- `Universe::set_width`: sets the width and rebuilds `cells` all-dead at
the new length. -/
def set_width (u : Universe) (width : Nat) : Universe :=
  { u with
    width := width
    cells := (List.range (width * u.height)).map fun _ => Cell.Dead }

/-- `Universe::set_height`: sets the height and rebuilds `cells` all-dead
at the new length. -/
def set_height (u : Universe) (height : Nat) : Universe :=
  { u with
    height := height
    cells := (List.range (u.width * height)).map fun _ => Cell.Dead }

/-- `Universe::toggle_cell`: flips `cells[get_index(row, column)]`.  The
Rust indexing panics when the flat index is out of bounds; that branch is
`none` here. -/
def toggle_cell (u : Universe) (row column : Nat) : Option Universe :=
  let idx := u.get_index row column
  if idx < u.cells.length then
    some { u with cells := u.cells.set idx (u.cells.getD idx Cell.Dead).toggle }
  else
    none

/-- `Universe::clear`: every cell dead, dimensions kept. -/
def clear (u : Universe) : Universe :=
  { u with cells := List.replicate (u.width * u.height) Cell.Dead }

/-- `Universe::randomize`: rebuilds `cells` at full length, each cell from
the injected randomness (`js_sys::Math::random() < 0.3` in the source;
the Boolean outcome of that comparison for the `i`-th draw is `f i`). -/
def randomize (u : Universe) (f : Nat → Bool) : Universe :=
  { u with
    cells := (List.range (u.width * u.height)).map fun i =>
      if f i then Cell.Alive else Cell.Dead }

/-- `Universe::clear_area`: sets every cell of the `height × width`
rectangle anchored (with toroidal wrap) at `(start_row, start_col)` to
`Dead`.  Private helper; its callers in `set_pattern` ensure both grid
dimensions are positive, so the `%` never divides by zero there. -/
def clear_area (u : Universe) (start_row start_col height width : Nat) : Universe :=
  { u with
    cells := (List.range height).foldl (fun cells row =>
      (List.range width).foldl (fun cells col =>
        let r := (start_row + row) % u.height
        let c := (start_col + col) % u.width
        cells.set (r * u.width + c) Cell.Dead) cells) u.cells }

/-- The glider's relative offsets from the source. -/
def gliderOffsets : List (Nat × Nat) :=
  [(0, 1), (1, 2), (2, 0), (2, 1), (2, 2)]

/-- The pulsar's relative offsets from the source (48 entries). -/
def pulsarOffsets : List (Nat × Nat) :=
  [(2, 4), (2, 5), (2, 6), (2, 10), (2, 11), (2, 12),
   (4, 2), (4, 7), (4, 9), (4, 14),
   (5, 2), (5, 7), (5, 9), (5, 14),
   (6, 2), (6, 7), (6, 9), (6, 14),
   (7, 4), (7, 5), (7, 6), (7, 10), (7, 11), (7, 12),
   (9, 4), (9, 5), (9, 6), (9, 10), (9, 11), (9, 12),
   (10, 2), (10, 7), (10, 9), (10, 14),
   (11, 2), (11, 7), (11, 9), (11, 14),
   (12, 2), (12, 7), (12, 9), (12, 14),
   (14, 4), (14, 5), (14, 6), (14, 10), (14, 11), (14, 12)]

/-- The Gosper glider gun's relative offsets from the source. -/
def gosperOffsets : List (Nat × Nat) :=
  [(1, 25),
   (2, 23), (2, 25),
   (3, 13), (3, 14), (3, 21), (3, 22), (3, 35), (3, 36),
   (4, 12), (4, 16), (4, 21), (4, 22), (4, 35), (4, 36),
   (5, 1), (5, 2), (5, 11), (5, 17), (5, 21), (5, 22),
   (6, 1), (6, 2), (6, 11), (6, 15), (6, 17), (6, 18), (6, 23), (6, 25),
   (7, 11), (7, 17), (7, 25),
   (8, 12), (8, 16),
   (9, 13), (9, 14)]

/-- The overlay loop shared by the three matched branches of
`set_pattern`: each offset `(row, col)` is wrapped to
`((start_row + row) % height, (start_col + col) % width)` and that cell is
set `Alive`. -/
def stamp (u : Universe) (offsets : List (Nat × Nat)) (start_row start_col : Nat) :
    Universe :=
  { u with
    cells := offsets.foldl (fun cells p =>
      let r := (start_row + p.1) % u.height
      let c := (start_col + p.2) % u.width
      cells.set (r * u.width + c) Cell.Alive) u.cells }

/-- `Universe::set_pattern`.  Each matched branch clears the pattern's
bounding box and overlays the pattern's offsets as `Alive`; an unknown
name only logs and mutates nothing.  In Rust the matched branches compute
`x % self.height` and `x % self.width`, which panics when the respective
dimension is zero; that panic is `none` here. -/
def set_pattern (u : Universe) (pattern : String) (start_row start_col : Nat) :
    Option Universe :=
  if pattern = "glider" then
    if u.height = 0 ∨ u.width = 0 then none
    else some (stamp (u.clear_area start_row start_col 3 3)
      gliderOffsets start_row start_col)
  else if pattern = "pulsar" then
    if u.height = 0 ∨ u.width = 0 then none
    else some (stamp (u.clear_area start_row start_col 17 17)
      pulsarOffsets start_row start_col)
  else if pattern = "gosper_glider_gun" then
    if u.height = 0 ∨ u.width = 0 then none
    else some (stamp (u.clear_area start_row start_col 11 38)
      gosperOffsets start_row start_col)
  else
    some u

/-- `Universe::live_neighbor_count`: iterates `delta_row` over
`[height - 1, 0, 1]` and `delta_col` over `[width - 1, 0, 1]`, skips the
pair that is numerically `(0, 0)`, and sums the cell values at the wrapped
positions. -/
def live_neighbor_count (u : Universe) (row column : Nat) : Nat :=
  [u.height - 1, 0, 1].foldl (fun count delta_row =>
    [u.width - 1, 0, 1].foldl (fun count delta_col =>
      if delta_row = 0 ∧ delta_col = 0 then count
      else
        let neighbor_row := (row + delta_row) % u.height
        let neighbor_col := (column + delta_col) % u.width
        let idx := neighbor_row * u.width + neighbor_col
        count + (u.cells.getD idx Cell.Dead).val) count) 0

/-- The rule applied per cell inside `tick`'s match, in the source's guard
order: live with `< 2` dies, live with `2` or `3` lives, live with `> 3`
dies, dead with exactly `3` becomes live, anything else is unchanged. -/
def next_cell (cell : Cell) (live_neighbors : Nat) : Cell :=
  match cell with
  | Cell.Alive =>
    if live_neighbors < 2 then Cell.Dead
    else if live_neighbors = 2 ∨ live_neighbors = 3 then Cell.Alive
    else if live_neighbors > 3 then Cell.Dead
    else cell
  | Cell.Dead =>
    if live_neighbors = 3 then Cell.Alive else cell

/-- `Universe::tick`: a scratch copy `next` of the cells is filled from
the *pre-tick* state (`u` is read throughout) and then swapped in. -/
def tick (u : Universe) : Universe :=
  { u with
    cells := (List.range u.height).foldl (fun next row =>
      (List.range u.width).foldl (fun next col =>
        let idx := u.get_index row col
        let cell := u.cells.getD idx Cell.Dead
        let live_neighbors := u.live_neighbor_count row col
        next.set idx (next_cell cell live_neighbors)) next) u.cells }

end Universe

/-! ## Generic lemmas about the write loops

Every mutation loop in the source writes `cells[idx] = v` for a computed
index; in the embedding these are folds of `List.set`.  The lemmas below
describe such folds pointwise. -/

namespace GolList

theorem getD_set_self {α : Type} (l : List α) (i : Nat) (v d : α)
    (h : i < l.length) : (l.set i v).getD i d = v := by
  simp [List.getD_eq_getElem?_getD, List.getElem?_set_self h]

theorem getD_set_ne {α : Type} (l : List α) (i j : Nat) (v d : α)
    (h : i ≠ j) : (l.set i v).getD j d = l.getD j d := by
  simp [List.getD_eq_getElem?_getD, List.getElem?_set_ne h]

/-- One pass of index-directed writes, pointwise: after setting `f i` at
every `i` in `idxs`, position `j` holds `f j` if it was written (and in
bounds), and is untouched otherwise. -/
theorem foldl_set_getD {α : Type} (f : Nat → α) (idxs : List Nat) (l : List α)
    (j : Nat) (d : α) :
    (idxs.foldl (fun acc i => acc.set i (f i)) l).getD j d =
      if j ∈ idxs ∧ j < l.length then f j else l.getD j d := by
  induction idxs generalizing l with
  | nil => simp
  | cons i rest ih =>
    simp only [List.foldl_cons]
    rw [ih]
    by_cases hji : j = i
    · subst hji
      by_cases hlt : j < l.length
      · by_cases hmem : j ∈ rest
        · simp [hmem, hlt]
        · simp [hmem, hlt, getD_set_self _ _ _ _ hlt]
      · rw [List.set_eq_of_length_le (Nat.le_of_not_lt hlt)]
        simp [hlt]
    · rw [List.length_set, getD_set_ne _ _ _ _ _ (fun h => hji h.symm)]
      by_cases hmem : j ∈ rest <;> simp [hmem, hji]

theorem foldl_set_length {α : Type} (f : Nat → α) (idxs : List Nat) (l : List α) :
    (idxs.foldl (fun acc i => acc.set i (f i)) l).length = l.length := by
  induction idxs generalizing l with
  | nil => rfl
  | cons i rest ih => simp [List.foldl_cons, ih]

/-- Folding a nested loop is folding over the flattened list of loop
indices. -/
theorem foldl_foldl {α β γ : Type} (g : β → γ → β) (outer : List α)
    (inner : α → List γ) (init : β) :
    outer.foldl (fun acc a => (inner a).foldl g acc) init =
      (outer.flatMap inner).foldl g init := by
  induction outer generalizing init with
  | nil => rfl
  | cons a rest ih => simp [List.foldl_cons, List.flatMap_cons, ih]

/-- Two folds agree when their step functions agree on the list's
elements. -/
theorem foldl_congr {α β : Type} {f g : β → α → β} {l : List α} {init : β}
    (h : ∀ acc a, a ∈ l → f acc a = g acc a) :
    l.foldl f init = l.foldl g init := by
  induction l generalizing init with
  | nil => rfl
  | cons a rest ih =>
    simp only [List.foldl_cons]
    rw [h init a (by simp)]
    exact ih fun acc b hb => h acc b (by simp [hb])

/-- The flat indices enumerated row-major by a `for row / for col` loop
pair are exactly the indices below `h * w`. -/
theorem mem_rowMajor (h w j : Nat) :
    (j ∈ (List.range h).flatMap fun r => (List.range w).map fun c => r * w + c) ↔
      j < h * w := by
  simp only [List.mem_flatMap, List.mem_map, List.mem_range]
  constructor
  · rintro ⟨r, hr, c, hc, rfl⟩
    calc r * w + c < r * w + w := by omega
    _ = (r + 1) * w := by ring
    _ ≤ h * w := Nat.mul_le_mul_right w hr
  · intro hj
    have hw : 0 < w := by
      rcases Nat.eq_zero_or_pos w with h0 | h0
      · subst h0; omega
      · exact h0
    refine ⟨j / w, ?_, j % w, Nat.mod_lt _ hw, ?_⟩
    · by_contra hcon
      have : h * w ≤ j / w * w := Nat.mul_le_mul_right w (Nat.le_of_not_lt hcon)
      have := Nat.div_mul_le_self j w
      omega
    · exact Nat.div_add_mod' j w

/-- Index-directed writes whose values are coherent with an answer
function `A` on the written indices: afterwards position `j` holds `A j`
if some element wrote to it (in bounds), else the old value. -/
theorem foldl_set_listA_getD {γ : Type} (g : γ → Nat) (F : γ → Cell) (A : Nat → Cell)
    (ps : List γ) (l : List Cell) (j : Nat) (d : Cell)
    (hcompat : ∀ p ∈ ps, F p = A (g p)) :
    (ps.foldl (fun acc p => acc.set (g p) (F p)) l).getD j d =
      if (∃ p ∈ ps, g p = j) ∧ j < l.length then A j else l.getD j d := by
  induction ps generalizing l with
  | nil => simp
  | cons p rest ih =>
    simp only [List.foldl_cons]
    rw [ih _ fun q hq => hcompat q (by simp [hq])]
    rw [List.length_set]
    by_cases hrest : (∃ q ∈ rest, g q = j) ∧ j < l.length
    · rw [if_pos hrest, if_pos ⟨⟨hrest.1.choose, by simp [hrest.1.choose_spec.1],
        hrest.1.choose_spec.2⟩, hrest.2⟩]
    · rw [if_neg hrest]
      by_cases hpj : g p = j
      · by_cases hlt : j < l.length
        · rw [if_pos ⟨⟨p, by simp, hpj⟩, hlt⟩, ← hpj,
            getD_set_self l (g p) (F p) d (hpj ▸ hlt), hcompat p (by simp)]
        · rw [List.set_eq_of_length_le (by omega)]
          rw [if_neg (by tauto)]
      · rw [getD_set_ne l (g p) j (F p) d hpj]
        rw [if_neg (by
          rintro ⟨⟨q, hq, hgq⟩, hlt⟩
          rcases List.mem_cons.mp hq with rfl | hq'
          · exact hpj hgq
          · exact hrest ⟨⟨q, hq', hgq⟩, hlt⟩)]

/-- Constant-value special case of `foldl_set_listA_getD`. -/
theorem foldl_set_list_getD {γ : Type} (g : γ → Nat) (v : Cell)
    (ps : List γ) (l : List Cell) (j : Nat) (d : Cell) :
    (ps.foldl (fun acc p => acc.set (g p) v) l).getD j d =
      if (∃ p ∈ ps, g p = j) ∧ j < l.length then v else l.getD j d :=
  foldl_set_listA_getD g (fun _ => v) (fun _ => v) ps l j d (fun _ _ => rfl)

theorem foldl_set_list_length {γ : Type} (g : γ → Nat) (F : γ → Cell)
    (ps : List γ) (l : List Cell) :
    (ps.foldl (fun acc p => acc.set (g p) (F p)) l).length = l.length := by
  induction ps generalizing l with
  | nil => rfl
  | cons p rest ih => simp [List.foldl_cons, ih]

/-- The row-major list of `(row, col)` loop indices of a nested
`for row in 0..h { for col in 0..w {..} }`. -/
def pairList (h w : Nat) : List (Nat × Nat) :=
  (List.range h).flatMap fun r => (List.range w).map fun c => (r, c)

theorem mem_pairList {h w : Nat} {p : Nat × Nat} :
    p ∈ pairList h w ↔ p.1 < h ∧ p.2 < w := by
  cases p with
  | mk a b =>
    simp only [pairList, List.mem_flatMap, List.mem_map, List.mem_range]
    constructor
    · rintro ⟨r, hr, c, hc, h⟩
      cases h
      exact ⟨hr, hc⟩
    · rintro ⟨ha, hb⟩
      exact ⟨a, ha, b, hb, rfl⟩

/-- A nested row/column loop is a single loop over `pairList`. -/
theorem nested_foldl_eq_pairList {β : Type} (g : β → Nat × Nat → β) (h w : Nat)
    (init : β) :
    (List.range h).foldl
        (fun acc r => (List.range w).foldl (fun acc c => g acc (r, c)) acc) init
      = (pairList h w).foldl g init := by
  rw [pairList, ← foldl_foldl]
  exact foldl_congr fun acc a _ => (List.foldl_map _ _ _ _).symm

end GolList

namespace Universe

open GolList

theorem stamp_width (u : Universe) (offsets : List (Nat × Nat)) (sr sc : Nat) :
    (u.stamp offsets sr sc).width = u.width := rfl

theorem stamp_height (u : Universe) (offsets : List (Nat × Nat)) (sr sc : Nat) :
    (u.stamp offsets sr sc).height = u.height := rfl

theorem clear_area_width (u : Universe) (sr sc bh bw : Nat) :
    (u.clear_area sr sc bh bw).width = u.width := rfl

theorem clear_area_height (u : Universe) (sr sc bh bw : Nat) :
    (u.clear_area sr sc bh bw).height = u.height := rfl

theorem tick_width (u : Universe) : u.tick.width = u.width := rfl

theorem tick_height (u : Universe) : u.tick.height = u.height := rfl

theorem stamp_cells_getD (u : Universe) (offsets : List (Nat × Nat))
    (sr sc j : Nat) (d : Cell) :
    (u.stamp offsets sr sc).cells.getD j d =
      if (∃ p ∈ offsets,
            ((sr + p.1) % u.height) * u.width + (sc + p.2) % u.width = j)
          ∧ j < u.cells.length
      then Cell.Alive else u.cells.getD j d := by
  have h := foldl_set_list_getD
    (fun p : Nat × Nat => ((sr + p.1) % u.height) * u.width + (sc + p.2) % u.width)
    Cell.Alive offsets u.cells j d
  simpa [stamp] using h

theorem stamp_cells_length (u : Universe) (offsets : List (Nat × Nat))
    (sr sc : Nat) :
    (u.stamp offsets sr sc).cells.length = u.cells.length := by
  have h := foldl_set_list_length
    (fun p : Nat × Nat => ((sr + p.1) % u.height) * u.width + (sc + p.2) % u.width)
    (fun _ => Cell.Alive) offsets u.cells
  simpa [stamp] using h

theorem clear_area_cells_eq (u : Universe) (sr sc bh bw : Nat) :
    (u.clear_area sr sc bh bw).cells =
      (pairList bh bw).foldl (fun acc p =>
        acc.set (((sr + p.1) % u.height) * u.width + (sc + p.2) % u.width)
          Cell.Dead) u.cells := by
  have h := nested_foldl_eq_pairList
    (fun (acc : List Cell) (p : Nat × Nat) =>
      acc.set (((sr + p.1) % u.height) * u.width + (sc + p.2) % u.width) Cell.Dead)
    bh bw u.cells
  simpa [clear_area] using h

theorem clear_area_cells_getD (u : Universe) (sr sc bh bw j : Nat) (d : Cell) :
    (u.clear_area sr sc bh bw).cells.getD j d =
      if (∃ p ∈ pairList bh bw,
            ((sr + p.1) % u.height) * u.width + (sc + p.2) % u.width = j)
          ∧ j < u.cells.length
      then Cell.Dead else u.cells.getD j d := by
  rw [clear_area_cells_eq]
  exact foldl_set_list_getD _ _ _ _ _ _

theorem clear_area_cells_length (u : Universe) (sr sc bh bw : Nat) :
    (u.clear_area sr sc bh bw).cells.length = u.cells.length := by
  rw [clear_area_cells_eq]
  exact foldl_set_list_length _ _ _ _

theorem tick_cells_eq (u : Universe) :
    u.tick.cells =
      (pairList u.height u.width).foldl (fun acc p =>
        acc.set (p.1 * u.width + p.2)
          (next_cell (u.cells.getD (p.1 * u.width + p.2) Cell.Dead)
            (u.live_neighbor_count p.1 p.2))) u.cells := by
  have h := nested_foldl_eq_pairList
    (fun (acc : List Cell) (p : Nat × Nat) =>
      acc.set (p.1 * u.width + p.2)
        (next_cell (u.cells.getD (p.1 * u.width + p.2) Cell.Dead)
          (u.live_neighbor_count p.1 p.2)))
    u.height u.width u.cells
  simpa [tick, get_index] using h

theorem tick_cells_length (u : Universe) :
    u.tick.cells.length = u.cells.length := by
  rw [tick_cells_eq]
  exact foldl_set_list_length _ _ _ _

/-- `tick` pointwise: the next state of cell `(i, j)` is the rule applied
to its pre-tick state and pre-tick live-neighbor count. -/
theorem tick_cells_getD (u : Universe) (hInv : u.Inv) (i j : Nat)
    (hi : i < u.height) (hj : j < u.width) (d : Cell) :
    u.tick.cells.getD (i * u.width + j) d =
      next_cell (u.cells.getD (i * u.width + j) Cell.Dead)
        (u.live_neighbor_count i j) := by
  have hw : 0 < u.width := by omega
  rw [tick_cells_eq]
  rw [foldl_set_listA_getD
    (fun p : Nat × Nat => p.1 * u.width + p.2)
    (fun p : Nat × Nat =>
      next_cell (u.cells.getD (p.1 * u.width + p.2) Cell.Dead)
        (u.live_neighbor_count p.1 p.2))
    (fun k =>
      next_cell (u.cells.getD k Cell.Dead)
        (u.live_neighbor_count (k / u.width) (k % u.width)))
    (pairList u.height u.width) u.cells _ d ?_]
  · have hmem : (∃ p ∈ pairList u.height u.width,
        p.1 * u.width + p.2 = i * u.width + j) :=
      ⟨(i, j), mem_pairList.mpr ⟨hi, hj⟩, rfl⟩
    have hlt : i * u.width + j < u.cells.length := by
      rw [hInv]
      calc i * u.width + j < (i + 1) * u.width := by ring_nf; omega
      _ ≤ u.height * u.width := Nat.mul_le_mul_right _ (by omega)
      _ = u.width * u.height := Nat.mul_comm _ _
    rw [if_pos ⟨hmem, hlt⟩]
    have hdiv : (i * u.width + j) / u.width = i := by
      rw [Nat.mul_comm i u.width, Nat.mul_add_div hw, Nat.div_eq_of_lt hj,
        Nat.add_zero]
    have hmod : (i * u.width + j) % u.width = j := by
      rw [Nat.mul_comm i u.width, Nat.mul_add_mod, Nat.mod_eq_of_lt hj]
    rw [hdiv, hmod]
  · rintro ⟨a, b⟩ hp
    have hb : b < u.width := (mem_pairList.mp hp).2
    have hdiv : (a * u.width + b) / u.width = a := by
      rw [Nat.mul_comm a u.width, Nat.mul_add_div hw, Nat.div_eq_of_lt hb,
        Nat.add_zero]
    have hmod : (a * u.width + b) % u.width = b := by
      rw [Nat.mul_comm a u.width, Nat.mul_add_mod, Nat.mod_eq_of_lt hb]
    simp only [hdiv, hmod]

end Universe

namespace Universe

/-- The summand read by `live_neighbor_count` at wrapped position
`(r, c)`. -/
def cellValAt (u : Universe) (r c : Nat) : Nat :=
  (u.cells.getD (r * u.width + c) Cell.Dead).val

/-- For dimensions at least 2 the skip test `delta_row == 0 &&
delta_col == 0` fires exactly once, and `live_neighbor_count` is the sum
of the eight wrapped reads, in iteration order. -/
theorem live_neighbor_count_eq (u : Universe) (h2 : 2 ≤ u.height)
    (w2 : 2 ≤ u.width) (row col : Nat) :
    u.live_neighbor_count row col =
      u.cellValAt ((row + (u.height - 1)) % u.height) ((col + (u.width - 1)) % u.width)
      + u.cellValAt ((row + (u.height - 1)) % u.height) ((col + 0) % u.width)
      + u.cellValAt ((row + (u.height - 1)) % u.height) ((col + 1) % u.width)
      + u.cellValAt ((row + 0) % u.height) ((col + (u.width - 1)) % u.width)
      + u.cellValAt ((row + 0) % u.height) ((col + 1) % u.width)
      + u.cellValAt ((row + 1) % u.height) ((col + (u.width - 1)) % u.width)
      + u.cellValAt ((row + 1) % u.height) ((col + 0) % u.width)
      + u.cellValAt ((row + 1) % u.height) ((col + 1) % u.width) := by
  have hh : u.height - 1 ≠ 0 := by omega
  have hw : u.width - 1 ≠ 0 := by omega
  simp [live_neighbor_count, cellValAt, hh, hw]

end Universe

theorem Cell.toggle_toggle (c : Cell) : c.toggle.toggle = c := by
  cases c <;> rfl

namespace GolList

theorem set_getD_self {α : Type} (l : List α) (i : Nat) (d : α)
    (h : i < l.length) : l.set i (l.getD i d) = l := by
  apply List.ext_getElem?
  intro n
  by_cases hn : n = i
  · subst hn
    rw [List.getElem?_set_self h, List.getD_eq_getElem?_getD,
      List.getElem?_eq_getElem h]
    rfl
  · exact List.getElem?_set_ne (fun hc => hn hc.symm)

end GolList

namespace Universe

open GolList

theorem new_Inv : Universe.new.Inv := by
  simp [new, Inv]

theorem set_width_Inv (u : Universe) (w : Nat) : (u.set_width w).Inv := by
  simp [set_width, Inv]

theorem set_height_Inv (u : Universe) (h : Nat) : (u.set_height h).Inv := by
  simp [set_height, Inv]

theorem clear_Inv (u : Universe) : u.clear.Inv := by
  simp [clear, Inv]

theorem randomize_Inv (u : Universe) (f : Nat → Bool) : (u.randomize f).Inv := by
  simp [randomize, Inv]

theorem toggle_cell_Inv (u : Universe) (r c : Nat) (u' : Universe)
    (h : u.toggle_cell r c = some u') (hInv : u.Inv) : u'.Inv := by
  simp only [toggle_cell] at h
  split at h
  · cases h
    simpa [Inv] using hInv
  · cases h

theorem stamp_Inv (u : Universe) (offsets : List (Nat × Nat)) (sr sc : Nat)
    (hInv : u.Inv) : (u.stamp offsets sr sc).Inv := by
  unfold Inv at *
  rw [stamp_cells_length]
  exact hInv

theorem clear_area_Inv (u : Universe) (sr sc bh bw : Nat) (hInv : u.Inv) :
    (u.clear_area sr sc bh bw).Inv := by
  unfold Inv at *
  rw [clear_area_cells_length]
  exact hInv

theorem set_pattern_Inv (u : Universe) (name : String) (sr sc : Nat)
    (u' : Universe) (h : u.set_pattern name sr sc = some u') (hInv : u.Inv) :
    u'.Inv := by
  unfold set_pattern at h
  split_ifs at h <;> first
    | (cases h; exact stamp_Inv _ _ _ _ (clear_area_Inv _ _ _ _ _ hInv))
    | (cases h; exact hInv)

theorem tick_Inv (u : Universe) (hInv : u.Inv) : u.tick.Inv := by
  unfold Inv at *
  rw [tick_cells_length]
  exact hInv

/-- The mutating operations of the public interface, with their
arguments; the randomness consumed by `randomize` is the injected source
`f`. -/
inductive Op where
  | opNew : Op
  | opSetWidth (w : Nat) : Op
  | opSetHeight (h : Nat) : Op
  | opToggleCell (r c : Nat) : Op
  | opSetPattern (name : String) (r c : Nat) : Op
  | opClear : Op
  | opRandomize (f : Nat → Bool) : Op
  | opTick : Op

/-- Effect of one mutating call on the grid (`none` = the call panics). -/
def applyOp (u : Universe) : Op → Option Universe
  | Op.opNew => some Universe.new
  | Op.opSetWidth w => some (u.set_width w)
  | Op.opSetHeight h => some (u.set_height h)
  | Op.opToggleCell r c => u.toggle_cell r c
  | Op.opSetPattern name r c => u.set_pattern name r c
  | Op.opClear => some u.clear
  | Op.opRandomize f => some (u.randomize f)
  | Op.opTick => some u.tick

/-- Grid states reachable from construction by sequences of mutating
calls that complete. -/
inductive Reachable : Universe → Prop where
  | init : Reachable Universe.new
  | step {u u' : Universe} (op : Op) : Reachable u → applyOp u op = some u' →
      Reachable u'

theorem applyOp_Inv (u : Universe) (op : Op) (u' : Universe)
    (h : applyOp u op = some u') (hInv : u.Inv) : u'.Inv := by
  cases op with
  | opNew => cases h; exact new_Inv
  | opSetWidth w => cases h; exact set_width_Inv u w
  | opSetHeight hh => cases h; exact set_height_Inv u hh
  | opToggleCell r c => exact toggle_cell_Inv u r c u' h hInv
  | opSetPattern name r c => exact set_pattern_Inv u name r c u' h hInv
  | opClear => cases h; exact clear_Inv u
  | opRandomize f => cases h; exact randomize_Inv u f
  | opTick => cases h; exact tick_Inv u hInv

theorem Reachable.inv {u : Universe} (h : Reachable u) : u.Inv := by
  induction h with
  | init => exact new_Inv
  | step op _ happ ih => exact applyOp_Inv _ op _ happ ih

end Universe

/-! ## Claim theorems (C2, C3, C5, C9, C10) -/

/-- C2: for every reachable grid state, every single completing call to a
mutating operation (`new`, `set_width`, `set_height`, `toggle_cell`,
`set_pattern`, `clear`, `randomize`, `tick`) re-establishes the invariant
`cells.length = width * height`; hence the invariant holds after every
sequence of such calls. -/
theorem C2_dimension_invariant (u u' : Universe) (op : Universe.Op)
    (hreach : Universe.Reachable u) (happ : Universe.applyOp u op = some u') :
    u'.Inv ∧ (∀ v : Universe, Universe.Reachable v → v.Inv) :=
  ⟨Universe.applyOp_Inv u op u' happ hreach.inv, fun _ hv => hv.inv⟩

/-- C2 witness: from the freshly constructed grid, one `clear()` call
lands in a state satisfying the invariant. -/
theorem C2_dimension_invariant_witness :
    (Universe.new.clear).Inv ∧ (∀ v : Universe, Universe.Reachable v → v.Inv) :=
  C2_dimension_invariant Universe.new Universe.new.clear Universe.Op.opClear
    Universe.Reachable.init rfl

/-- C3: `new()` returns a 64×64 grid (4096 cells) whose cell at flat
index `i` is `Alive` iff `i % 2 = 0` or `i % 7 = 0`; `new` is a constant
function, so the result is the same on every call. -/
theorem C3_new_seed :
    Universe.new.width = 64 ∧ Universe.new.height = 64 ∧
      Universe.new.cells.length = 4096 ∧
      ∀ i, i < 4096 →
        (Universe.new.cells.getD i Cell.Dead = Cell.Alive ↔
          i % 2 = 0 ∨ i % 7 = 0) := by
  refine ⟨rfl, rfl, by simp [Universe.new], ?_⟩
  intro i hi
  have hi' : i < 64 * 64 := by omega
  simp only [Universe.new, List.getD_eq_getElem?_getD, List.getElem?_map,
    List.getElem?_range hi', Option.map_some, Option.getD_some]
  by_cases h : i % 2 = 0 ∨ i % 7 = 0
  · simp [h]
  · have h2 : ¬ i % 2 = 0 := fun hc => h (Or.inl hc)
    have h7 : ¬ i % 7 = 0 := fun hc => h (Or.inr hc)
    simp [h2, h7]

/-- C3 witness: flat index 7 of the fresh grid is `Alive`
(since 7 % 7 = 0). -/
theorem C3_new_seed_witness :
    Universe.new.cells.getD 7 Cell.Dead = Cell.Alive :=
  (C3_new_seed.2.2.2 7 (by norm_num)).mpr (by norm_num)

/-- C5: `set_pattern` with a name other than the three known patterns
returns the grid unchanged (same width, height and cells) and surfaces no
error; in particular no rectangle is cleared. -/
theorem C5_unknown_pattern_noop (u : Universe) (name : String) (sr sc : Nat)
    (hg : name ≠ "glider") (hp : name ≠ "pulsar")
    (hgg : name ≠ "gosper_glider_gun") :
    u.set_pattern name sr sc = some u := by
  simp [Universe.set_pattern, hg, hp, hgg]

/-- C5 witness: `set_pattern("not_a_pattern", 0, 0)` on the fresh grid
returns it unchanged. -/
theorem C5_unknown_pattern_noop_witness :
    Universe.new.set_pattern "not_a_pattern" 0 0 = some Universe.new :=
  C5_unknown_pattern_noop Universe.new "not_a_pattern" 0 0
    (by decide) (by decide) (by decide)

/-- C9: on a grid satisfying the dimension invariant, `toggle_cell(row,
column)` indexes the flat offset `row * width + column` with no
wraparound and no coordinate validation: the call succeeds exactly when
`row * width + column < width * height`, flipping that flat cell, and
the out-of-bounds branch (a panic in Rust, `none` here) is reached
exactly when `row * width + column ≥ width * height`. -/
theorem C9_toggle_flat_indexing (u : Universe) (row column : Nat)
    (hInv : u.Inv) :
    (row * u.width + column < u.width * u.height →
      u.toggle_cell row column = some { u with
        cells := u.cells.set (row * u.width + column)
          ((u.cells.getD (row * u.width + column) Cell.Dead).toggle) })
    ∧ (u.width * u.height ≤ row * u.width + column →
      u.toggle_cell row column = none) := by
  unfold Universe.Inv at hInv
  constructor
  · intro h
    simp only [Universe.toggle_cell, Universe.get_index]
    rw [if_pos (by omega)]
  · intro h
    simp only [Universe.toggle_cell, Universe.get_index]
    rw [if_neg (by omega)]

/-- C9 witness: on a 2×2 grid, `toggle_cell(0, 5)` (flat index 5 ≥ 4)
hits the panic branch, and `toggle_cell(0, 1)` flips flat cell 1. -/
theorem C9_toggle_flat_indexing_witness :
    Universe.toggle_cell ⟨2, 2, [Cell.Dead, Cell.Alive, Cell.Dead, Cell.Dead]⟩
        0 5 = none
    ∧ Universe.toggle_cell ⟨2, 2, [Cell.Dead, Cell.Alive, Cell.Dead, Cell.Dead]⟩
        0 1 = some ⟨2, 2, [Cell.Dead, Cell.Dead, Cell.Dead, Cell.Dead]⟩ := by
  constructor
  · exact (C9_toggle_flat_indexing _ 0 5 (by decide)).2 (by decide)
  · rw [(C9_toggle_flat_indexing
      ⟨2, 2, [Cell.Dead, Cell.Alive, Cell.Dead, Cell.Dead]⟩ 0 1
      (by decide)).1 (by decide)]
    decide

/-- C10: a successful `toggle_cell(row, column)` changes only the cell at
flat index `row * width + column` (width, height and all other cells are
unchanged, and that cell is flipped), and a second identical call
restores exactly the original grid. -/
theorem C10_toggle_involution (u : Universe) (row column : Nat)
    (hInv : u.Inv) (hidx : row * u.width + column < u.width * u.height) :
    ∃ u', u.toggle_cell row column = some u' ∧
      u'.width = u.width ∧ u'.height = u.height ∧
      u'.cells.length = u.cells.length ∧
      (∀ k d, k ≠ row * u.width + column →
        u'.cells.getD k d = u.cells.getD k d) ∧
      u'.cells.getD (row * u.width + column) Cell.Dead =
        (u.cells.getD (row * u.width + column) Cell.Dead).toggle ∧
      u'.toggle_cell row column = some u := by
  have hlen : row * u.width + column < u.cells.length := by
    unfold Universe.Inv at hInv
    omega
  refine ⟨_, (C9_toggle_flat_indexing u row column hInv).1 hidx,
    rfl, rfl, by simp, ?_, ?_, ?_⟩
  · intro k d hk
    exact GolList.getD_set_ne _ _ _ _ _ fun h => hk h.symm
  · exact GolList.getD_set_self _ _ _ _ hlen
  · simp only [Universe.toggle_cell, Universe.get_index]
    rw [if_pos (by simpa using hlen)]
    rw [GolList.getD_set_self _ _ _ _ hlen, List.set_set,
      Cell.toggle_toggle,
      GolList.set_getD_self _ _ _ hlen]

/-- C10 witness: on a concrete 2×2 grid, toggling `(0, 1)` twice restores
the grid, and the intermediate grid differs only at flat index 1. -/
theorem C10_toggle_involution_witness :
    ∃ u', Universe.toggle_cell
        ⟨2, 2, [Cell.Dead, Cell.Alive, Cell.Dead, Cell.Dead]⟩ 0 1 = some u' ∧
      u'.width = 2 ∧ u'.height = 2 ∧
      u'.cells.length = 4 ∧
      (∀ k d, k ≠ 0 * 2 + 1 →
        u'.cells.getD k d =
          (⟨2, 2, [Cell.Dead, Cell.Alive, Cell.Dead, Cell.Dead]⟩ :
            Universe).cells.getD k d) ∧
      u'.cells.getD (0 * 2 + 1) Cell.Dead = Cell.Alive.toggle ∧
      u'.toggle_cell 0 1 =
        some ⟨2, 2, [Cell.Dead, Cell.Alive, Cell.Dead, Cell.Dead]⟩ :=
  C10_toggle_involution ⟨2, 2, [Cell.Dead, Cell.Alive, Cell.Dead, Cell.Dead]⟩
    0 1 (by decide) (by decide)

/-! ## Helpers for wrapped-position reasoning -/

namespace GolWrap

/-- Two offsets below the modulus that wrap (from the same anchor) to the
same row or column are equal. -/
theorem add_mod_cancel {s a b m : Nat} (ha : a < m) (hb : b < m)
    (heq : (s + a) % m = (s + b) % m) : a = b := by
  have hmod : a ≡ b [MOD m] :=
    Nat.ModEq.add_left_cancel (Nat.ModEq.refl s) heq
  have : a % m = b % m := hmod
  rw [Nat.mod_eq_of_lt ha, Nat.mod_eq_of_lt hb] at this
  exact this

/-- Row-major flat indices agree only when rows and columns agree, as
long as both column parts are below the width. -/
theorem flat_index_inj {w r1 c1 r2 c2 : Nat} (hc1 : c1 < w) (hc2 : c2 < w)
    (h : r1 * w + c1 = r2 * w + c2) : r1 = r2 ∧ c1 = c2 := by
  have hw : 0 < w := by omega
  have h1 : (r1 * w + c1) / w = r1 := by
    rw [Nat.mul_comm r1 w, Nat.mul_add_div hw, Nat.div_eq_of_lt hc1,
      Nat.add_zero]
  have h2 : (r2 * w + c2) / w = r2 := by
    rw [Nat.mul_comm r2 w, Nat.mul_add_div hw, Nat.div_eq_of_lt hc2,
      Nat.add_zero]
  have h3 : (r1 * w + c1) % w = c1 := by
    rw [Nat.mul_comm r1 w, Nat.mul_add_mod, Nat.mod_eq_of_lt hc1]
  have h4 : (r2 * w + c2) % w = c2 := by
    rw [Nat.mul_comm r2 w, Nat.mul_add_mod, Nat.mod_eq_of_lt hc2]
  constructor
  · rw [← h1, ← h2, h]
  · rw [← h3, ← h4, h]

/-- A wrapped row-major flat index is in bounds. -/
theorem wrapped_index_lt {hgt wdt : Nat} (hh : 0 < hgt) (hw : 0 < wdt)
    (a b : Nat) : (a % hgt) * wdt + b % wdt < wdt * hgt := by
  have h1 : a % hgt < hgt := Nat.mod_lt _ hh
  have h2 : b % wdt < wdt := Nat.mod_lt _ hw
  calc (a % hgt) * wdt + b % wdt < (a % hgt) * wdt + wdt := by omega
  _ = (a % hgt + 1) * wdt := by ring
  _ ≤ hgt * wdt := Nat.mul_le_mul_right _ (by omega)
  _ = wdt * hgt := Nat.mul_comm _ _

end GolWrap

/-- C6: stamping `"glider"` on a grid with both dimensions at least 3
pre-clears the 3×3 bounding box: every wrapped box cell not in the
glider's offset table ends `Dead` (even if previously `Alive`), and every
cell outside the wrapped box is unchanged; width and height are kept. -/
theorem C6_glider_footprint (u : Universe) (sr sc : Nat) (hInv : u.Inv)
    (h3 : 3 ≤ u.height) (w3 : 3 ≤ u.width) :
    ∃ u', u.set_pattern "glider" sr sc = some u' ∧
      u'.width = u.width ∧ u'.height = u.height ∧
      (∀ dr dc, dr < 3 → dc < 3 → (dr, dc) ∉ Universe.gliderOffsets →
        u'.cells.getD
          (((sr + dr) % u.height) * u.width + (sc + dc) % u.width)
          Cell.Dead = Cell.Dead) ∧
      (∀ i j, i < u.height → j < u.width →
        (∀ dr dc, dr < 3 → dc < 3 →
          ¬(i = (sr + dr) % u.height ∧ j = (sc + dc) % u.width)) →
        ∀ d, u'.cells.getD (i * u.width + j) d =
          u.cells.getD (i * u.width + j) d) := by
  have hh0 : 0 < u.height := by omega
  have hw0 : 0 < u.width := by omega
  have hlen : u.cells.length = u.width * u.height := hInv
  have hclen : (u.clear_area sr sc 3 3).cells.length = u.width * u.height := by
    rw [Universe.clear_area_cells_length, hlen]
  refine ⟨(u.clear_area sr sc 3 3).stamp Universe.gliderOffsets sr sc,
    ?_, rfl, rfl, ?_, ?_⟩
  · unfold Universe.set_pattern
    rw [if_pos rfl, if_neg (by omega)]
  · intro dr dc hdr hdc hnot
    rw [Universe.stamp_cells_getD]
    rw [if_neg ?_]
    · rw [Universe.clear_area_cells_getD]
      rw [if_pos ?_]
      refine ⟨⟨(dr, dc), GolList.mem_pairList.mpr ⟨hdr, hdc⟩, rfl⟩, ?_⟩
      rw [hlen]
      exact GolWrap.wrapped_index_lt hh0 hw0 _ _
    · rintro ⟨⟨p, hp, hpe⟩, -⟩
      simp only [Universe.clear_area_height, Universe.clear_area_width] at hpe
      obtain ⟨hrow, hcol⟩ := GolWrap.flat_index_inj
        (Nat.mod_lt _ hw0) (Nat.mod_lt _ hw0) hpe
      have hp1 : p.1 < 3 ∧ p.2 < 3 := by
        have : p ∈ Universe.gliderOffsets := hp
        fin_cases this <;> exact ⟨by omega, by omega⟩
      have e1 : p.1 = dr := GolWrap.add_mod_cancel
        (by omega) (by omega) hrow
      have e2 : p.2 = dc := GolWrap.add_mod_cancel
        (by omega) (by omega) hcol
      apply hnot
      rw [← e1, ← e2]
      exact hp
  · intro i j hi hj hout d
    rw [Universe.stamp_cells_getD]
    rw [if_neg ?_]
    · rw [Universe.clear_area_cells_getD]
      rw [if_neg ?_]
      rintro ⟨⟨p, hp, hpe⟩, -⟩
      have hp3 : p.1 < 3 ∧ p.2 < 3 := GolList.mem_pairList.mp hp
      obtain ⟨hrow, hcol⟩ := GolWrap.flat_index_inj
        (Nat.mod_lt _ hw0) hj hpe
      exact hout p.1 p.2 hp3.1 hp3.2 ⟨hrow.symm, hcol.symm⟩
    · rintro ⟨⟨p, hp, hpe⟩, -⟩
      simp only [Universe.clear_area_height, Universe.clear_area_width] at hpe
      have hp3 : p.1 < 3 ∧ p.2 < 3 := by
        have : p ∈ Universe.gliderOffsets := hp
        fin_cases this <;> exact ⟨by omega, by omega⟩
      obtain ⟨hrow, hcol⟩ := GolWrap.flat_index_inj
        (Nat.mod_lt _ hw0) hj hpe
      exact hout p.1 p.2 hp3.1 hp3.2 ⟨hrow.symm, hcol.symm⟩

/-- C6 witness: on an all-`Alive` 3×3 grid, stamping the glider at
`(0, 0)` makes the box cell `(0, 0)` (not in the offset table) `Dead` and
leaves no cell outside the box (there is none) to change. -/
theorem C6_glider_footprint_witness :
    ∃ u', Universe.set_pattern
        ⟨3, 3, List.replicate 9 Cell.Alive⟩ "glider" 0 0 = some u' ∧
      u'.width = 3 ∧ u'.height = 3 ∧
      (∀ dr dc, dr < 3 → dc < 3 → (dr, dc) ∉ Universe.gliderOffsets →
        u'.cells.getD ((0 + dr) % 3 * 3 + (0 + dc) % 3) Cell.Dead =
          Cell.Dead) ∧
      (∀ i j, i < 3 → j < 3 →
        (∀ dr dc, dr < 3 → dc < 3 →
          ¬(i = (0 + dr) % 3 ∧ j = (0 + dc) % 3)) →
        ∀ d, u'.cells.getD (i * 3 + j) d =
          (⟨3, 3, List.replicate 9 Cell.Alive⟩ :
            Universe).cells.getD (i * 3 + j) d) :=
  C6_glider_footprint ⟨3, 3, List.replicate 9 Cell.Alive⟩ 0 0
    (by decide) (by decide) (by decide)

namespace GolList

/-- `count` as a cardinality of live flat indices. -/
theorem count_alive_eq_card (l : List Cell) :
    l.count Cell.Alive =
      ((Finset.range l.length).filter
        (fun k => l.getD k Cell.Dead = Cell.Alive)).card := by
  induction l with
  | nil => simp
  | cons c t ih =>
    rw [List.count_cons, List.length_cons, Finset.card_filter,
      Finset.sum_range_succ']
    simp only [List.getD_cons_succ, List.getD_cons_zero]
    rw [← Finset.card_filter, ← ih]
    simp [beq_iff_eq]

end GolList

namespace Universe

/-- A written position of `stamp`, in bounds, reads back `Alive`. -/
theorem stamp_getD_of_mem (u : Universe) (offsets : List (Nat × Nat))
    (sr sc j : Nat) (d : Cell)
    (hmem : ∃ p ∈ offsets,
      ((sr + p.1) % u.height) * u.width + (sc + p.2) % u.width = j)
    (hlt : j < u.cells.length) :
    (u.stamp offsets sr sc).cells.getD j d = Cell.Alive := by
  rw [stamp_cells_getD, if_pos ⟨hmem, hlt⟩]

/-- A position `stamp` never writes is untouched. -/
theorem stamp_getD_of_not (u : Universe) (offsets : List (Nat × Nat))
    (sr sc j : Nat) (d : Cell)
    (hnot : ¬∃ p ∈ offsets,
      ((sr + p.1) % u.height) * u.width + (sc + p.2) % u.width = j) :
    (u.stamp offsets sr sc).cells.getD j d = u.cells.getD j d := by
  rw [stamp_cells_getD, if_neg fun hc => hnot hc.1]

/-- A position inside the cleared box, in bounds, reads back `Dead`. -/
theorem clear_area_getD_of_mem (u : Universe) (sr sc bh bw j : Nat) (d : Cell)
    (hmem : ∃ p ∈ GolList.pairList bh bw,
      ((sr + p.1) % u.height) * u.width + (sc + p.2) % u.width = j)
    (hlt : j < u.cells.length) :
    (u.clear_area sr sc bh bw).cells.getD j d = Cell.Dead := by
  rw [clear_area_cells_getD, if_pos ⟨hmem, hlt⟩]

/-- A position outside the cleared box is untouched by `clear_area`. -/
theorem clear_area_getD_of_not (u : Universe) (sr sc bh bw j : Nat) (d : Cell)
    (hnot : ¬∃ p ∈ GolList.pairList bh bw,
      ((sr + p.1) % u.height) * u.width + (sc + p.2) % u.width = j) :
    (u.clear_area sr sc bh bw).cells.getD j d = u.cells.getD j d := by
  rw [clear_area_cells_getD, if_neg fun hc => hnot hc.1]

/-- Stamping after `clear_area`: a stamped position, in bounds, reads
`Alive`. -/
theorem stamp_clear_getD_alive (u : Universe) (offsets : List (Nat × Nat))
    (sr sc bh bw j : Nat) (d : Cell)
    (hmem : ∃ p ∈ offsets,
      ((sr + p.1) % u.height) * u.width + (sc + p.2) % u.width = j)
    (hlt : j < u.cells.length) :
    ((u.clear_area sr sc bh bw).stamp offsets sr sc).cells.getD j d =
      Cell.Alive := by
  apply stamp_getD_of_mem
  · rw [clear_area_height, clear_area_width]
    exact hmem
  · rw [clear_area_cells_length]
    exact hlt

/-- Stamping after `clear_area`: a box position no offset writes, in
bounds, reads `Dead`. -/
theorem stamp_clear_getD_cleared (u : Universe) (offsets : List (Nat × Nat))
    (sr sc bh bw j : Nat) (d : Cell)
    (hnot : ¬∃ p ∈ offsets,
      ((sr + p.1) % u.height) * u.width + (sc + p.2) % u.width = j)
    (hmem : ∃ p ∈ GolList.pairList bh bw,
      ((sr + p.1) % u.height) * u.width + (sc + p.2) % u.width = j)
    (hlt : j < u.cells.length) :
    ((u.clear_area sr sc bh bw).stamp offsets sr sc).cells.getD j d =
      Cell.Dead := by
  have h1 : ((u.clear_area sr sc bh bw).stamp offsets sr sc).cells.getD j d =
      (u.clear_area sr sc bh bw).cells.getD j d := by
    apply stamp_getD_of_not
    rw [clear_area_height, clear_area_width]
    exact hnot
  rw [h1]
  exact clear_area_getD_of_mem _ _ _ _ _ _ _ hmem hlt

/-- Stamping after `clear_area`: a position outside both the box and the
offset table is untouched. -/
theorem stamp_clear_getD_outside (u : Universe) (offsets : List (Nat × Nat))
    (sr sc bh bw j : Nat) (d : Cell)
    (hnot : ¬∃ p ∈ offsets,
      ((sr + p.1) % u.height) * u.width + (sc + p.2) % u.width = j)
    (hnotcl : ¬∃ p ∈ GolList.pairList bh bw,
      ((sr + p.1) % u.height) * u.width + (sc + p.2) % u.width = j) :
    ((u.clear_area sr sc bh bw).stamp offsets sr sc).cells.getD j d =
      u.cells.getD j d := by
  have h1 : ((u.clear_area sr sc bh bw).stamp offsets sr sc).cells.getD j d =
      (u.clear_area sr sc bh bw).cells.getD j d := by
    apply stamp_getD_of_not
    rw [clear_area_height, clear_area_width]
    exact hnot
  rw [h1]
  exact clear_area_getD_of_not _ _ _ _ _ _ _ hnotcl

end Universe

set_option maxRecDepth 4000 in
/-- C4 counterexample: on an all-dead 17×17 grid,
`set_pattern("pulsar", 0, 0)` does not leave 36 cells alive (it leaves
48). -/
theorem C4_pulsar_counterexample :
    (Universe.set_pattern ⟨17, 17, List.replicate 289 Cell.Dead⟩
        "pulsar" 0 0).map (fun u => u.cells.count Cell.Alive) ≠ some 36 := by
  decide

/-- C4 (amended): on an all-dead grid with both dimensions at least 17,
`set_pattern("pulsar", r, c)` leaves exactly 48 cells alive, precisely at
the source's pulsar offset table wrapped into the 17×17 box anchored at
`(r, c)`. -/
theorem C4_pulsar_amended (u : Universe) (sr sc : Nat)
    (h17 : 17 ≤ u.height) (w17 : 17 ≤ u.width)
    (hcells : u.cells = List.replicate (u.width * u.height) Cell.Dead) :
    ∃ u', u.set_pattern "pulsar" sr sc = some u' ∧
      (∀ i j, i < u.height → j < u.width →
        (u'.cells.getD (i * u.width + j) Cell.Dead = Cell.Alive ↔
          ∃ p ∈ Universe.pulsarOffsets,
            i = (sr + p.1) % u.height ∧ j = (sc + p.2) % u.width)) ∧
      u'.cells.count Cell.Alive = 48 := by
  have hh0 : 0 < u.height := by omega
  have hw0 : 0 < u.width := by omega
  have hlen : u.cells.length = u.width * u.height := by
    rw [hcells, List.length_replicate]
  have hb17 : ∀ p ∈ Universe.pulsarOffsets, p.1 < 17 ∧ p.2 < 17 := by decide
  have hposlt : ∀ p : Nat × Nat,
      ((sr + p.1) % u.height) * u.width + (sc + p.2) % u.width
        < u.cells.length := by
    intro p
    rw [hlen]
    exact GolWrap.wrapped_index_lt hh0 hw0 _ _
  have hposinj : ∀ p ∈ Universe.pulsarOffsets, ∀ q ∈ Universe.pulsarOffsets,
      ((sr + p.1) % u.height) * u.width + (sc + p.2) % u.width =
        ((sr + q.1) % u.height) * u.width + (sc + q.2) % u.width → p = q := by
    intro p hp q hq hpq
    obtain ⟨hrow, hcol⟩ := GolWrap.flat_index_inj
      (Nat.mod_lt _ hw0) (Nat.mod_lt _ hw0) hpq
    obtain ⟨hp1, hp2⟩ := hb17 p hp
    obtain ⟨hq1, hq2⟩ := hb17 q hq
    have e1 : p.1 = q.1 := GolWrap.add_mod_cancel (by omega) (by omega) hrow
    have e2 : p.2 = q.2 := GolWrap.add_mod_cancel (by omega) (by omega) hcol
    exact Prod.ext e1 e2
  have hclen : (u.clear_area sr sc 17 17).cells.length = u.cells.length :=
    Universe.clear_area_cells_length u sr sc 17 17
  have hpointA : ∀ k, k < u.cells.length →
      (∃ p ∈ Universe.pulsarOffsets,
        ((sr + p.1) % u.height) * u.width + (sc + p.2) % u.width = k) → ∀ d,
      ((u.clear_area sr sc 17 17).stamp Universe.pulsarOffsets
        sr sc).cells.getD k d = Cell.Alive := by
    intro k hk hex d
    exact Universe.stamp_clear_getD_alive u _ sr sc 17 17 k d hex hk
  have hpointD : ∀ k, k < u.cells.length →
      (¬∃ p ∈ Universe.pulsarOffsets,
        ((sr + p.1) % u.height) * u.width + (sc + p.2) % u.width = k) → ∀ d,
      ((u.clear_area sr sc 17 17).stamp Universe.pulsarOffsets
        sr sc).cells.getD k d = Cell.Dead := by
    intro k hk hex d
    by_cases hcl : ∃ p ∈ GolList.pairList 17 17,
        ((sr + p.1) % u.height) * u.width + (sc + p.2) % u.width = k
    · exact Universe.stamp_clear_getD_cleared u _ sr sc 17 17 k d hex hcl hk
    · rw [Universe.stamp_clear_getD_outside u _ sr sc 17 17 k d hex hcl,
        hcells]
      rw [List.getD_eq_getElem?_getD, List.getElem?_replicate,
        if_pos (by omega : k < u.width * u.height)]
      rfl
  refine ⟨(u.clear_area sr sc 17 17).stamp Universe.pulsarOffsets sr sc,
    ?_, ?_, ?_⟩
  · unfold Universe.set_pattern
    rw [if_neg (by decide), if_pos rfl, if_neg (by omega)]
  · intro i j hi hj
    have hk : i * u.width + j < u.cells.length := by
      rw [hlen]
      calc i * u.width + j < (i + 1) * u.width := by ring_nf; omega
      _ ≤ u.height * u.width := Nat.mul_le_mul_right _ (by omega)
      _ = u.width * u.height := Nat.mul_comm _ _
    constructor
    · intro halive
      by_cases hex : ∃ p ∈ Universe.pulsarOffsets,
          ((sr + p.1) % u.height) * u.width + (sc + p.2) % u.width =
            i * u.width + j
      · obtain ⟨p, hp, hpe⟩ := hex
        obtain ⟨hrow, hcol⟩ := GolWrap.flat_index_inj
          (Nat.mod_lt _ hw0) hj hpe
        exact ⟨p, hp, hrow.symm, hcol.symm⟩
      · rw [hpointD _ hk hex] at halive
        cases halive
    · rintro ⟨p, hp, hpi, hpj⟩
      exact hpointA _ hk ⟨p, hp, by rw [← hpi, ← hpj]⟩ _
  · rw [GolList.count_alive_eq_card]
    have hlen' : ((u.clear_area sr sc 17 17).stamp Universe.pulsarOffsets
        sr sc).cells.length = u.cells.length := by
      rw [Universe.stamp_cells_length, Universe.clear_area_cells_length]
    rw [hlen']
    have hset : (Finset.range u.cells.length).filter
        (fun k => ((u.clear_area sr sc 17 17).stamp Universe.pulsarOffsets
          sr sc).cells.getD k Cell.Dead = Cell.Alive) =
        (Universe.pulsarOffsets.map (fun p =>
          ((sr + p.1) % u.height) * u.width +
            (sc + p.2) % u.width)).toFinset := by
      apply Finset.ext
      intro k
      simp only [Finset.mem_filter, Finset.mem_range, List.mem_toFinset,
        List.mem_map]
      constructor
      · rintro ⟨hk, halive⟩
        by_cases hex : ∃ p ∈ Universe.pulsarOffsets,
            ((sr + p.1) % u.height) * u.width + (sc + p.2) % u.width = k
        · obtain ⟨p, hp, hpe⟩ := hex
          exact ⟨p, hp, hpe⟩
        · rw [hpointD _ hk hex] at halive
          cases halive
      · rintro ⟨p, hp, hpe⟩
        refine ⟨hpe ▸ hposlt p, ?_⟩
        exact hpointA _ (hpe ▸ hposlt p) ⟨p, hp, hpe⟩ _
    rw [hset]
    rw [List.toFinset_card_of_nodup]
    · simp [Universe.pulsarOffsets]
    · exact (by decide : Universe.pulsarOffsets.Nodup).map_on hposinj

/-- C4 amended witness: the concrete all-dead 17×17 grid. -/
theorem C4_pulsar_amended_witness :
    ∃ u', Universe.set_pattern ⟨17, 17, List.replicate 289 Cell.Dead⟩
        "pulsar" 0 0 = some u' ∧
      (∀ i j, i < 17 → j < 17 →
        (u'.cells.getD (i * 17 + j) Cell.Dead = Cell.Alive ↔
          ∃ p ∈ Universe.pulsarOffsets,
            i = (0 + p.1) % 17 ∧ j = (0 + p.2) % 17)) ∧
      u'.cells.count Cell.Alive = 48 :=
  C4_pulsar_amended ⟨17, 17, List.replicate 289 Cell.Dead⟩ 0 0
    (by decide) (by decide) rfl

/-! ## C1: the spec's neighbor rule, and where the code matches it -/

/-- The eight neighbor offsets named by the claim:
`{-1,0,1} × {-1,0,1}` excluding `(0,0)`. -/
def specOffsets : List (Int × Int) :=
  [(-1, -1), (-1, 0), (-1, 1), (0, -1), (0, 1), (1, -1), (1, 0), (1, 1)]

/-- Following the claim's words: the live-neighbor count of `(row, col)`
is the number of `Alive` cells among the 8 positions at offsets
`{-1,0,1} × {-1,0,1}` excluding `(0,0)`, each wrapped modulo height and
width. -/
def spec_live_neighbor_count (u : Universe) (row col : Nat) : Nat :=
  (specOffsets.map (fun p =>
    (u.cells.getD
      ((((row : Int) + p.1) % (u.height : Int)).toNat * u.width +
        (((col : Int) + p.2) % (u.width : Int)).toNat)
      Cell.Dead).val)).sum

/-- Following the claim's words: a pre-tick `Alive` cell with fewer than
2 live neighbors becomes `Dead`, with 2 or 3 stays `Alive`, with more
than 3 becomes `Dead`; a pre-tick `Dead` cell with exactly 3 live
neighbors becomes `Alive`; all other cells are unchanged. -/
def spec_next_cell (cell : Cell) (live_neighbors : Nat) : Cell :=
  match cell with
  | Cell.Alive =>
    if live_neighbors < 2 then Cell.Dead
    else if live_neighbors = 2 ∨ live_neighbors = 3 then Cell.Alive
    else if live_neighbors > 3 then Cell.Dead
    else cell
  | Cell.Dead =>
    if live_neighbors = 3 then Cell.Alive else cell

/-- C1 counterexample: the 2×1 grid `[Alive, Dead]` satisfies the claim's
premises (width ≥ 1, height ≥ 1, invariant), yet after `tick()` cell
`(0,0)` is `Dead` while the claim's rule (count 2 among the 8 wrapped
offsets: `(-1,0)` and `(1,0)` both land on the live cell itself) keeps it
`Alive`. -/
theorem C1_tick_rule_counterexample :
    (⟨2, 1, [Cell.Alive, Cell.Dead]⟩ : Universe).Inv ∧
    1 ≤ (⟨2, 1, [Cell.Alive, Cell.Dead]⟩ : Universe).height ∧
    1 ≤ (⟨2, 1, [Cell.Alive, Cell.Dead]⟩ : Universe).width ∧
    ¬ ((Universe.tick ⟨2, 1, [Cell.Alive, Cell.Dead]⟩).cells.getD
          (0 * 2 + 0) Cell.Dead =
        spec_next_cell
          ((⟨2, 1, [Cell.Alive, Cell.Dead]⟩ : Universe).cells.getD
            (0 * 2 + 0) Cell.Dead)
          (spec_live_neighbor_count ⟨2, 1, [Cell.Alive, Cell.Dead]⟩ 0 0)) := by
  decide

namespace GolWrap

theorem toNat_emod_add_neg_one (a m : Nat) (hm : 0 < m) :
    (((a : Int) + (-1)) % (m : Int)).toNat = (a + (m - 1)) % m := by
  have h1 : ((a : Int) + (-1)) % (m : Int) =
      (((a + (m - 1) : Nat)) : Int) % (m : Int) := by
    conv_lhs => rw [← Int.add_mul_emod_self_left ((a : Int) + (-1)) (m : Int) 1]
    congr 1
    omega
  rw [h1, ← Int.natCast_mod, Int.toNat_natCast]

theorem toNat_emod_add_zero (a m : Nat) (_hm : 0 < m) :
    (((a : Int) + 0) % (m : Int)).toNat = (a + 0) % m := by
  have h1 : (a : Int) + 0 = ((a + 0 : Nat) : Int) := by omega
  rw [h1, ← Int.natCast_mod, Int.toNat_natCast]

theorem toNat_emod_add_one (a m : Nat) (_hm : 0 < m) :
    (((a : Int) + 1) % (m : Int)).toNat = (a + 1) % m := by
  have h1 : (a : Int) + 1 = ((a + 1 : Nat) : Int) := by omega
  rw [h1, ← Int.natCast_mod, Int.toNat_natCast]

end GolWrap

/-- On dimensions at least 2 the code's neighbor count coincides with the
claim's 8-offset wrapped count. -/
theorem live_neighbor_count_eq_spec (u : Universe) (h2 : 2 ≤ u.height)
    (w2 : 2 ≤ u.width) (row col : Nat) :
    u.live_neighbor_count row col = spec_live_neighbor_count u row col := by
  have hh0 : 0 < u.height := by omega
  have hw0 : 0 < u.width := by omega
  rw [Universe.live_neighbor_count_eq u h2 w2 row col]
  simp only [spec_live_neighbor_count, specOffsets, List.map_cons,
    List.map_nil, List.sum_cons, List.sum_nil,
    GolWrap.toNat_emod_add_neg_one _ _ hh0,
    GolWrap.toNat_emod_add_neg_one _ _ hw0,
    GolWrap.toNat_emod_add_zero _ _ hh0,
    GolWrap.toNat_emod_add_zero _ _ hw0,
    GolWrap.toNat_emod_add_one _ _ hh0,
    GolWrap.toNat_emod_add_one _ _ hw0]
  unfold Universe.cellValAt
  omega

/-- C1 (amended): on every grid with width ≥ 2 and height ≥ 2 satisfying
the dimension invariant, after `tick()` the cell at `(row, col)` equals
the claim's Game of Life rule applied to the pre-tick state with the
8-offset wrapped neighbor count; no update reads a post-tick value (the
right-hand side only mentions the pre-tick grid). -/
theorem C1_tick_rule_amended (u : Universe) (hInv : u.Inv)
    (h2 : 2 ≤ u.height) (w2 : 2 ≤ u.width) (i j : Nat)
    (hi : i < u.height) (hj : j < u.width) :
    u.tick.cells.getD (i * u.width + j) Cell.Dead =
      spec_next_cell (u.cells.getD (i * u.width + j) Cell.Dead)
        (spec_live_neighbor_count u i j) := by
  rw [Universe.tick_cells_getD u hInv i j hi hj,
    ← live_neighbor_count_eq_spec u h2 w2 i j]
  rfl

/-- C1 amended witness: a single live cell on a 2×2 grid dies (0 live
neighbors). -/
theorem C1_tick_rule_amended_witness :
    (Universe.tick ⟨2, 2, [Cell.Alive, Cell.Dead, Cell.Dead, Cell.Dead]⟩).cells.getD
        (0 * 2 + 0) Cell.Dead =
      spec_next_cell
        ((⟨2, 2, [Cell.Alive, Cell.Dead, Cell.Dead, Cell.Dead]⟩ :
          Universe).cells.getD (0 * 2 + 0) Cell.Dead)
        (spec_live_neighbor_count
          ⟨2, 2, [Cell.Alive, Cell.Dead, Cell.Dead, Cell.Dead]⟩ 0 0) :=
  C1_tick_rule_amended ⟨2, 2, [Cell.Alive, Cell.Dead, Cell.Dead, Cell.Dead]⟩
    (by decide) (by decide) (by decide) 0 0 (by decide) (by decide)

/-! ## C7: the 2×2 block is a still life -/

namespace GolList

theorem list_eq_of_getD {α : Type} (l1 l2 : List α) (d : α)
    (hlen : l1.length = l2.length)
    (h : ∀ k, k < l2.length → l1.getD k d = l2.getD k d) : l1 = l2 := by
  apply List.ext_getElem hlen
  intro k h1 h2
  have hk := h k h2
  rwa [List.getD_eq_getElem?_getD, List.getD_eq_getElem?_getD,
    List.getElem?_eq_getElem h1, List.getElem?_eq_getElem h2,
    Option.getD_some, Option.getD_some] at hk

end GolList

namespace GolWrap

/-- Wrapped addition of a small step, resolved into plain arithmetic. -/
theorem addWrap (x k m : Nat) (hx : x < m) (hk : k ≤ m) :
    (x + k) % m = if x + k < m then x + k else x + k - m := by
  split_ifs with hlt
  · exact Nat.mod_eq_of_lt hlt
  · rw [Nat.mod_eq_sub_mod (by omega), Nat.mod_eq_of_lt (by omega)]

set_option maxHeartbeats 1000000 in
/-- For a modulus at least 4 and the 2-element wrapped window
`{r mod m, (r+1) mod m}`, each position `i < m` realises exactly one of
five membership profiles of (itself, its wrapped predecessor, its
wrapped successor): a member has exactly one neighbor outside the
window, and a non-member never has both neighbors inside. -/
theorem wrapProfile (m r : Nat) (h4 : 4 ≤ m) (i : Nat) (hi : i < m) :
    ((i = r % m ∨ i = (r + 1) % m) ∧
      ((i + (m - 1)) % m = r % m ∨ (i + (m - 1)) % m = (r + 1) % m) ∧
      ¬((i + 1) % m = r % m ∨ (i + 1) % m = (r + 1) % m)) ∨
    ((i = r % m ∨ i = (r + 1) % m) ∧
      ¬((i + (m - 1)) % m = r % m ∨ (i + (m - 1)) % m = (r + 1) % m) ∧
      ((i + 1) % m = r % m ∨ (i + 1) % m = (r + 1) % m)) ∨
    (¬(i = r % m ∨ i = (r + 1) % m) ∧
      ((i + (m - 1)) % m = r % m ∨ (i + (m - 1)) % m = (r + 1) % m) ∧
      ¬((i + 1) % m = r % m ∨ (i + 1) % m = (r + 1) % m)) ∨
    (¬(i = r % m ∨ i = (r + 1) % m) ∧
      ¬((i + (m - 1)) % m = r % m ∨ (i + (m - 1)) % m = (r + 1) % m) ∧
      ((i + 1) % m = r % m ∨ (i + 1) % m = (r + 1) % m)) ∨
    (¬(i = r % m ∨ i = (r + 1) % m) ∧
      ¬((i + (m - 1)) % m = r % m ∨ (i + (m - 1)) % m = (r + 1) % m) ∧
      ¬((i + 1) % m = r % m ∨ (i + 1) % m = (r + 1) % m)) := by
  have e5 : r % m < m := Nat.mod_lt _ (by omega)
  have e4 : (r + 1) % m = (r % m + 1) % m := by
    conv_lhs => rw [Nat.add_mod, Nat.mod_eq_of_lt (show 1 < m by omega)]
  have e3 := addWrap (r % m) 1 m e5 (by omega)
  have e1 := addWrap i (m - 1) m hi (by omega)
  have e2 := addWrap i 1 m hi (by omega)
  rw [e4, e3, e1, e2]
  split_ifs <;> omega

end GolWrap

set_option maxHeartbeats 1000000 in
/-- C7: on every grid with both dimensions at least 4 satisfying the
dimension invariant, if exactly the four wrapped cells
`(r, c), (r, c+1), (r+1, c), (r+1, c+1)` are `Alive` and all others are
`Dead`, then `tick()` leaves the grid unchanged: the 2×2 block is a
fixed point of `tick`. -/
theorem C7_block_still_life (u : Universe) (r c : Nat) (hInv : u.Inv)
    (h4 : 4 ≤ u.height) (w4 : 4 ≤ u.width)
    (H : ∀ i, i < u.height → ∀ j, j < u.width →
      (u.cells.getD (i * u.width + j) Cell.Dead = Cell.Alive ↔
        (i = r % u.height ∨ i = (r + 1) % u.height) ∧
        (j = c % u.width ∨ j = (c + 1) % u.width))) :
    u.tick = u := by
  have hh0 : 0 < u.height := by omega
  have hw0 : 0 < u.width := by omega
  have hval : ∀ x y, x < u.height → y < u.width →
      u.cells.getD (x * u.width + y) Cell.Dead =
        if (x = r % u.height ∨ x = (r + 1) % u.height) ∧
            (y = c % u.width ∨ y = (c + 1) % u.width)
        then Cell.Alive else Cell.Dead := by
    intro x y hx hy
    by_cases hxy : (x = r % u.height ∨ x = (r + 1) % u.height) ∧
        (y = c % u.width ∨ y = (c + 1) % u.width)
    · rw [if_pos hxy]
      exact (H x hx y hy).mpr hxy
    · rw [if_neg hxy]
      cases hcell : u.cells.getD (x * u.width + y) Cell.Dead with
      | Dead => rfl
      | Alive => exact absurd ((H x hx y hy).mp hcell) hxy
  have hcell_step : ∀ i j, i < u.height → j < u.width →
      Universe.next_cell (u.cells.getD (i * u.width + j) Cell.Dead)
        (u.live_neighbor_count i j) =
        u.cells.getD (i * u.width + j) Cell.Dead := by
    intro i j hi hj
    have hv1 : ∀ a b : Nat,
        (u.cells.getD ((a % u.height) * u.width + b % u.width)
          Cell.Dead).val =
        if (a % u.height = r % u.height ∨
              a % u.height = (r + 1) % u.height) ∧
            (b % u.width = c % u.width ∨ b % u.width = (c + 1) % u.width)
        then 1 else 0 := by
      intro a b
      rw [hval _ _ (Nat.mod_lt _ hh0) (Nat.mod_lt _ hw0)]
      split_ifs <;> rfl
    have hv2 : ∀ b : Nat,
        (u.cells.getD (i * u.width + b % u.width) Cell.Dead).val =
        if (i = r % u.height ∨ i = (r + 1) % u.height) ∧
            (b % u.width = c % u.width ∨ b % u.width = (c + 1) % u.width)
        then 1 else 0 := by
      intro b
      rw [hval _ _ hi (Nat.mod_lt _ hw0)]
      split_ifs <;> rfl
    have hv3 : ∀ a : Nat,
        (u.cells.getD ((a % u.height) * u.width + j) Cell.Dead).val =
        if (a % u.height = r % u.height ∨
              a % u.height = (r + 1) % u.height) ∧
            (j = c % u.width ∨ j = (c + 1) % u.width)
        then 1 else 0 := by
      intro a
      rw [hval _ _ (Nat.mod_lt _ hh0) hj]
      split_ifs <;> rfl
    rw [Universe.live_neighbor_count_eq u (by omega) (by omega) i j]
    simp only [Universe.cellValAt, Nat.add_zero]
    rw [Nat.mod_eq_of_lt hi, Nat.mod_eq_of_lt hj]
    simp only [hv1, hv2, hv3]
    rw [hval i j hi hj]
    clear hval hv1 hv2 hv3 H hInv
    rcases GolWrap.wrapProfile u.height r h4 i hi with
      ⟨hM, hP, hS⟩ | ⟨hM, hP, hS⟩ | ⟨hM, hP, hS⟩ | ⟨hM, hP, hS⟩ |
      ⟨hM, hP, hS⟩ <;>
    rcases GolWrap.wrapProfile u.width c w4 j hj with
      ⟨hN, hQ, hT⟩ | ⟨hN, hQ, hT⟩ | ⟨hN, hQ, hT⟩ | ⟨hN, hQ, hT⟩ |
      ⟨hN, hQ, hT⟩ <;>
      simp only [hM, hN, hP, hS, hQ, hT, iff_true, iff_false,
        eq_self_iff_true, true_and, and_true, false_and, and_false,
        if_true, if_false] <;>
      decide
  have hlen : u.tick.cells.length = u.cells.length :=
    Universe.tick_cells_length u
  have hpt : ∀ k, k < u.cells.length →
      u.tick.cells.getD k Cell.Dead = u.cells.getD k Cell.Dead := by
    intro k hk
    have hkk : k < u.width * u.height := by
      rw [← hInv]
      exact hk
    have hi : k / u.width < u.height := by
      by_contra hcon
      have h1 : u.height * u.width ≤ k / u.width * u.width :=
        Nat.mul_le_mul_right _ (Nat.le_of_not_lt hcon)
      have h2 := Nat.div_mul_le_self k u.width
      have h3 : u.width * u.height = u.height * u.width := Nat.mul_comm _ _
      omega
    have hj : k % u.width < u.width := Nat.mod_lt _ hw0
    have hdecomp : k = k / u.width * u.width + k % u.width :=
      (Nat.div_add_mod' k u.width).symm
    rw [hdecomp, Universe.tick_cells_getD u hInv _ _ hi hj]
    exact hcell_step _ _ hi hj
  have hcells : u.tick.cells = u.cells :=
    GolList.list_eq_of_getD _ _ Cell.Dead hlen hpt
  calc u.tick = ⟨u.width, u.height, u.tick.cells⟩ := rfl
  _ = ⟨u.width, u.height, u.cells⟩ := by rw [hcells]
  _ = u := rfl

/-- C7 witness: the concrete 2×2 block at `(0, 0)` on a 4×4 grid is
unchanged by `tick`. -/
theorem C7_block_still_life_witness :
    Universe.tick ⟨4, 4,
      [Cell.Alive, Cell.Alive, Cell.Dead, Cell.Dead,
       Cell.Alive, Cell.Alive, Cell.Dead, Cell.Dead,
       Cell.Dead, Cell.Dead, Cell.Dead, Cell.Dead,
       Cell.Dead, Cell.Dead, Cell.Dead, Cell.Dead]⟩ =
    ⟨4, 4,
      [Cell.Alive, Cell.Alive, Cell.Dead, Cell.Dead,
       Cell.Alive, Cell.Alive, Cell.Dead, Cell.Dead,
       Cell.Dead, Cell.Dead, Cell.Dead, Cell.Dead,
       Cell.Dead, Cell.Dead, Cell.Dead, Cell.Dead]⟩ :=
  C7_block_still_life _ 0 0 (by decide) (by decide) (by decide) (by decide)

/-! ## C8: a bitboard bridge for computing `tick` on the 64×64 grid

Kernel evaluation of `tick` on a 4096-cell list would recurse too
deeply, so the four generations of the glider are computed on a `Nat`
whose binary digits encode the cells, with a balanced-tree builder that
keeps recursion logarithmic; `tick_encCells` proves the bitboard step
equal to `tick` bit for bit. -/

namespace GolBits

/-- The cells of a grid as binary digits of a `Nat` (bit `k` is cell
`k`). -/
def encCells : List Cell → Nat
  | [] => 0
  | c :: rest => c.val + 2 * encCells rest

theorem encCells_lt (l : List Cell) : encCells l < 2 ^ l.length := by
  induction l with
  | nil => simp [encCells]
  | cons c t ih =>
    have hc : c.val ≤ 1 := by cases c <;> simp [Cell.val]
    simp only [encCells, List.length_cons, Nat.pow_succ]
    omega

theorem encCells_bit (l : List Cell) (k : Nat) :
    encCells l / 2 ^ k % 2 = (l.getD k Cell.Dead).val := by
  induction l generalizing k with
  | nil => simp [encCells, Cell.val]
  | cons c t ih =>
    have hc : c.val ≤ 1 := by cases c <;> simp [Cell.val]
    cases k with
    | zero =>
      simp only [encCells, Nat.pow_zero, Nat.div_one, List.getD_cons_zero]
      rw [Nat.add_mul_mod_self_left]
      exact Nat.mod_eq_of_lt (by omega)
    | succ k =>
      have hdiv : encCells (c :: t) / 2 ^ (k + 1) = encCells t / 2 ^ k := by
        rw [Nat.pow_succ, Nat.mul_comm (2 ^ k) 2, ← Nat.div_div_eq_div_mul]
        congr 1
        simp only [encCells]
        rw [Nat.add_mul_div_left _ _ (by omega : 0 < 2),
          Nat.div_eq_of_lt (by omega)]
        omega
      rw [hdiv, ih, List.getD_cons_succ]

/-- Digit `k` of the board. -/
def bitAt (s k : Nat) : Nat := s >>> k % 2

theorem bitAt_eq (s k : Nat) : bitAt s k = s / 2 ^ k % 2 := by
  rw [bitAt, Nat.shiftRight_eq_div_pow]

/-- Balanced-tree assembly of `2 ^ d` digits produced by `f`, starting
at index `base * 2 ^ d`; recursion depth is `d`, not the digit count. -/
def buildBits (f : Nat → Nat) : Nat → Nat → Nat
  | 0, base => f base
  | d + 1, base =>
    buildBits f d (2 * base) + buildBits f d (2 * base + 1) <<< 2 ^ d

theorem buildBits_lt (f : Nat → Nat) (hf : ∀ x, f x ≤ 1) :
    ∀ d base, buildBits f d base < 2 ^ 2 ^ d := by
  intro d
  induction d with
  | zero =>
    intro base
    simp only [buildBits]
    have := hf base
    omega
  | succ d ih =>
    intro base
    have hA := ih (2 * base)
    have hB := ih (2 * base + 1)
    simp only [buildBits, Nat.shiftLeft_eq]
    have hpow : (2 : Nat) ^ 2 ^ (d + 1) = 2 ^ 2 ^ d * 2 ^ 2 ^ d := by
      rw [← Nat.pow_add]
      congr 1
      rw [Nat.pow_succ]
      ring
    rw [hpow]
    have hp : 0 < (2 : Nat) ^ 2 ^ d := Nat.pos_pow_of_pos _ (by omega)
    calc buildBits f d (2 * base) + buildBits f d (2 * base + 1) * 2 ^ 2 ^ d
        < 2 ^ 2 ^ d + buildBits f d (2 * base + 1) * 2 ^ 2 ^ d := by omega
    _ = (buildBits f d (2 * base + 1) + 1) * 2 ^ 2 ^ d := by ring
    _ ≤ 2 ^ 2 ^ d * 2 ^ 2 ^ d := Nat.mul_le_mul_right _ (by omega)

theorem buildBits_bit (f : Nat → Nat) (hf : ∀ x, f x ≤ 1) :
    ∀ d base k, k < 2 ^ d →
      buildBits f d base / 2 ^ k % 2 = f (base * 2 ^ d + k) := by
  intro d
  induction d with
  | zero =>
    intro base k hk
    have hk0 : k = 0 := by
      have : (2 : Nat) ^ 0 = 1 := rfl
      omega
    subst hk0
    simp only [buildBits, Nat.pow_zero, Nat.div_one, Nat.mul_one,
      Nat.add_zero]
    exact Nat.mod_eq_of_lt (by have := hf base; omega)
  | succ d ih =>
    intro base k hk
    have hA := buildBits_lt f hf d (2 * base)
    have hB := buildBits_lt f hf d (2 * base + 1)
    have hpow2 : (2 : Nat) ^ (d + 1) = 2 ^ d + 2 ^ d := by
      rw [Nat.pow_succ]
      ring
    simp only [buildBits, Nat.shiftLeft_eq]
    by_cases hsmall : k < 2 ^ d
    · have hsplit : buildBits f d (2 * base + 1) * 2 ^ 2 ^ d =
          buildBits f d (2 * base + 1) * 2 ^ (2 ^ d - k) * 2 ^ k := by
        rw [Nat.mul_assoc, ← Nat.pow_add]
        congr 2
        omega
      rw [hsplit, Nat.add_mul_div_right _ _ (Nat.pos_pow_of_pos _ (by omega))]
      have hstep : buildBits f d (2 * base) / 2 ^ k +
            buildBits f d (2 * base + 1) * 2 ^ (2 ^ d - k) =
          buildBits f d (2 * base) / 2 ^ k +
            buildBits f d (2 * base + 1) * 2 ^ (2 ^ d - k - 1) * 2 := by
        rw [Nat.mul_assoc, ← Nat.pow_succ, Nat.succ_eq_add_one,
          Nat.sub_add_cancel (by omega : 1 ≤ 2 ^ d - k)]
      rw [hstep, Nat.add_mul_mod_self_right, ih (2 * base) k hsmall]
      congr 1
      have he : (2 : Nat) ^ (d + 1) = 2 * 2 ^ d := by
        rw [Nat.pow_succ]
        ring
      rw [he]
      ring
    · have hk2 : k - 2 ^ d < 2 ^ d := by omega
      have hsplit : (2 : Nat) ^ k = 2 ^ 2 ^ d * 2 ^ (k - 2 ^ d) := by
        rw [← Nat.pow_add]
        congr 1
        omega
      rw [hsplit, ← Nat.div_div_eq_div_mul,
        Nat.add_mul_div_right _ _ (Nat.pos_pow_of_pos _ (by omega)),
        Nat.div_eq_of_lt hA, Nat.zero_add, ih (2 * base + 1) _ hk2]
      congr 1
      have he : (2 : Nat) ^ (d + 1) = 2 * 2 ^ d := by
        rw [Nat.pow_succ]
        ring
      have e1 : (2 * base + 1) * 2 ^ d = 2 * (base * 2 ^ d) + 2 ^ d := by
        ring
      have e2 : base * 2 ^ (d + 1) = 2 * (base * 2 ^ d) := by
        rw [he]
        ring
      omega

/-- Logarithmic-depth check of a decidable property on `2 ^ d`
consecutive numbers. -/
def blt (f : Nat → Bool) : Nat → Nat → Bool
  | 0, base => f base
  | d + 1, base => blt f d (2 * base) && blt f d (2 * base + 1)

theorem blt_sound (f : Nat → Bool) :
    ∀ d base, blt f d base = true →
      ∀ k, k < 2 ^ d → f (base * 2 ^ d + k) = true := by
  intro d
  induction d with
  | zero =>
    intro base h k hk
    have hk0 : k = 0 := by
      have : (2 : Nat) ^ 0 = 1 := rfl
      omega
    subst hk0
    simpa [blt] using h
  | succ d ih =>
    intro base h k hk
    rw [blt, Bool.and_eq_true] at h
    have he : (2 : Nat) ^ (d + 1) = 2 * 2 ^ d := by
      rw [Nat.pow_succ]
      ring
    by_cases hsmall : k < 2 ^ d
    · have := ih (2 * base) h.1 k hsmall
      have e1 : (2 * base) * 2 ^ d = base * 2 ^ (d + 1) := by
        rw [he]
        ring
      rwa [e1] at this
    · have hk2 : k - 2 ^ d < 2 ^ d := by omega
      have := ih (2 * base + 1) h.2 (k - 2 ^ d) hk2
      have e1 : (2 * base + 1) * 2 ^ d + (k - 2 ^ d) =
          base * 2 ^ (d + 1) + k := by
        have e2 : (2 * base + 1) * 2 ^ d = 2 * (base * 2 ^ d) + 2 ^ d := by
          ring
        have e3 : base * 2 ^ (d + 1) = 2 * (base * 2 ^ d) := by
          rw [he]
          ring
        omega
      rwa [e1] at this

/-- Bounded bit extensionality. -/
theorem nat_eq_of_bits (n a b : Nat) (ha : a < 2 ^ n) (hb : b < 2 ^ n)
    (h : ∀ k, k < n → a / 2 ^ k % 2 = b / 2 ^ k % 2) : a = b := by
  apply Nat.eq_of_testBit_eq
  intro k
  by_cases hk : k < n
  · rw [Nat.testBit_to_div_mod, Nat.testBit_to_div_mod, h k hk]
  · have hmono : (2 : Nat) ^ n ≤ 2 ^ k :=
      Nat.pow_le_pow_right (by omega) (by omega)
    rw [Nat.testBit_to_div_mod, Nat.testBit_to_div_mod,
      Nat.div_eq_of_lt (by omega), Nat.div_eq_of_lt (by omega)]

end GolBits

namespace GolBits

/-- The 8-neighbor count of cell `(i, j)` read from the bitboard of a
64×64 grid, mirroring `live_neighbor_count`'s eight wrapped reads. -/
def bitNeighborCount (s i j : Nat) : Nat :=
  bitAt s (((i + (64 - 1)) % 64) * 64 + (j + (64 - 1)) % 64)
  + bitAt s (((i + (64 - 1)) % 64) * 64 + (j + 0) % 64)
  + bitAt s (((i + (64 - 1)) % 64) * 64 + (j + 1) % 64)
  + bitAt s (((i + 0) % 64) * 64 + (j + (64 - 1)) % 64)
  + bitAt s (((i + 0) % 64) * 64 + (j + 1) % 64)
  + bitAt s (((i + 1) % 64) * 64 + (j + (64 - 1)) % 64)
  + bitAt s (((i + 1) % 64) * 64 + (j + 0) % 64)
  + bitAt s (((i + 1) % 64) * 64 + (j + 1) % 64)

/-- The rule of `tick` on bit `k` of the 64×64 bitboard. -/
def bitNext (s k : Nat) : Nat :=
  let c := bitAt s k
  let n := bitNeighborCount s (k / 64) (k % 64)
  if c = 1 then
    if n < 2 then 0 else if n = 2 ∨ n = 3 then 1 else if n > 3 then 0 else 1
  else if n = 3 then 1 else 0

theorem bitNext_le_one (s k : Nat) : bitNext s k ≤ 1 := by
  simp only [bitNext]
  split_ifs <;> omega

/-- One generation of the 64×64 board, computed on the bitboard. -/
def tickBits (s : Nat) : Nat := buildBits (bitNext s) 12 0

theorem tickBits_bit (s k : Nat) (hk : k < 4096) :
    tickBits s / 2 ^ k % 2 = bitNext s k := by
  have h12 : (2 : Nat) ^ 12 = 4096 := by norm_num
  have h := buildBits_bit (bitNext s) (fun x => bitNext_le_one s x) 12 0 k
    (by rw [h12]; exact hk)
  simpa using h

theorem tickBits_lt (s : Nat) : tickBits s < 2 ^ 4096 := by
  have h := buildBits_lt (bitNext s) (fun x => bitNext_le_one s x) 12 0
  have h12 : (2 : Nat) ^ 12 = 4096 := by norm_num
  rw [h12] at h
  exact h

/-- `tick` pointwise on a 64×64 grid, with the grid's fields spelled
out. -/
theorem tick64_getD (cells : List Cell) (hlen : cells.length = 4096)
    (i j : Nat) (hi : i < 64) (hj : j < 64) :
    (Universe.tick ⟨64, 64, cells⟩).cells.getD (i * 64 + j) Cell.Dead =
      Universe.next_cell (cells.getD (i * 64 + j) Cell.Dead)
        (Universe.live_neighbor_count ⟨64, 64, cells⟩ i j) := by
  have h := Universe.tick_cells_getD ⟨64, 64, cells⟩
    (by simp [Universe.Inv, hlen]) i j hi hj Cell.Dead
  simpa using h

/-- The code's neighbor count on a 64×64 grid equals the bitboard
count of its encoding. -/
theorem lnc64_eq (cells : List Cell) (i j : Nat) :
    Universe.live_neighbor_count ⟨64, 64, cells⟩ i j =
      bitNeighborCount (encCells cells) i j := by
  have h := Universe.live_neighbor_count_eq ⟨64, 64, cells⟩
    (by norm_num) (by norm_num) i j
  rw [h]
  simp [Universe.cellValAt, bitNeighborCount, bitAt_eq, encCells_bit]

/-- The per-cell rule agrees with `bitNext`. -/
theorem next64_eq (cells : List Cell) (k : Nat) :
    (Universe.next_cell (cells.getD k Cell.Dead)
      (bitNeighborCount (encCells cells) (k / 64) (k % 64))).val =
    bitNext (encCells cells) k := by
  simp only [bitNext, bitAt_eq, encCells_bit]
  cases hcell : cells.getD k Cell.Dead <;>
    (try simp only [Cell.val, Universe.next_cell]) <;>
    split_ifs <;>
    first
      | rfl
      | omega
      | assumption

/-- `tick` on a 64×64 grid is `tickBits` on its bitboard. -/
theorem tick_encCells (u : Universe) (hInv : u.Inv) (hw : u.width = 64)
    (hh : u.height = 64) :
    encCells u.tick.cells = tickBits (encCells u.cells) := by
  cases u with
  | mk w h cells =>
    have hw' : w = 64 := hw
    have hh' : h = 64 := hh
    subst hw' hh'
    have hlen : cells.length = 4096 := by
      have h1 : cells.length = 64 * 64 := hInv
      omega
    apply nat_eq_of_bits 4096
    · have h1 := encCells_lt (Universe.tick ⟨64, 64, cells⟩).cells
      have h2 : (Universe.tick ⟨64, 64, cells⟩).cells.length = 4096 := by
        rw [Universe.tick_cells_length]
        exact hlen
      rwa [h2] at h1
    · exact tickBits_lt _
    · intro k hk
      have hi : k / 64 < 64 := by omega
      have hj : k % 64 < 64 := by omega
      have hdecomp : k = k / 64 * 64 + k % 64 := by omega
      rw [encCells_bit, tickBits_bit _ _ hk]
      conv_lhs => rw [hdecomp]
      rw [tick64_getD cells hlen _ _ hi hj, lnc64_eq, ← hdecomp]
      exact next64_eq cells k

end GolBits

/-- The all-dead 64×64 grid. -/
def deadGrid64 : Universe := ⟨64, 64, List.replicate 4096 Cell.Dead⟩

/-- The grid produced by stamping the glider at `(0, 0)` on
`deadGrid64` (the value `set_pattern` returns there). -/
def gliderStamped : Universe :=
  (deadGrid64.clear_area 0 0 3 3).stamp Universe.gliderOffsets 0 0

/-- Bitboard of `gliderStamped`: bits 1, 66, 128, 129, 130. -/
def S0g : Nat := 2381976568446569244317409228317215686658

/-- Bitboard after four generations: bits 66, 131, 193, 194, 195,
i.e. cells (1,2), (2,3), (3,1), (3,2), (3,3). -/
def S4g : Nat := 87879424295413530696423310860274837533213760058245467078656

theorem deadGrid64_Inv : deadGrid64.Inv := by
  show (List.replicate 4096 Cell.Dead).length = 64 * 64
  rw [List.length_replicate]

theorem gliderStamped_Inv : gliderStamped.Inv := by
  unfold gliderStamped
  exact Universe.stamp_Inv _ _ _ _
    (Universe.clear_area_Inv _ _ _ _ _ deadGrid64_Inv)

theorem gliderStamped_len : gliderStamped.cells.length = 4096 := by
  unfold gliderStamped
  rw [Universe.stamp_cells_length, Universe.clear_area_cells_length,
    show deadGrid64.cells = List.replicate 4096 Cell.Dead from rfl,
    List.length_replicate]

theorem gliderStamped_char : ∀ k, k < 4096 →
    (gliderStamped.cells.getD k Cell.Dead).val =
      if k = 1 ∨ k = 66 ∨ k = 128 ∨ k = 129 ∨ k = 130 then 1 else 0 := by
  intro k hk
  unfold gliderStamped
  have hlt : k < deadGrid64.cells.length := by
    rw [show deadGrid64.cells = List.replicate 4096 Cell.Dead from rfl,
      List.length_replicate]
    exact hk
  have hnot : ¬(k = 1 ∨ k = 66 ∨ k = 128 ∨ k = 129 ∨ k = 130) →
      ¬∃ p ∈ Universe.gliderOffsets,
        ((0 + p.1) % deadGrid64.height) * deadGrid64.width +
          (0 + p.2) % deadGrid64.width = k := by
    rintro h5 ⟨p, hp, hpe⟩
    fin_cases hp <;> (norm_num [deadGrid64] at hpe; omega)
  by_cases h5 : k = 1 ∨ k = 66 ∨ k = 128 ∨ k = 129 ∨ k = 130
  · rw [if_pos h5]
    have halive : ((deadGrid64.clear_area 0 0 3 3).stamp
        Universe.gliderOffsets 0 0).cells.getD k Cell.Dead = Cell.Alive := by
      apply Universe.stamp_clear_getD_alive deadGrid64 Universe.gliderOffsets
        0 0 3 3 k Cell.Dead ?_ hlt
      rcases h5 with rfl | rfl | rfl | rfl | rfl
      · exact ⟨(0, 1), by decide, by decide⟩
      · exact ⟨(1, 2), by decide, by decide⟩
      · exact ⟨(2, 0), by decide, by decide⟩
      · exact ⟨(2, 1), by decide, by decide⟩
      · exact ⟨(2, 2), by decide, by decide⟩
    rw [halive]
    rfl
  · rw [if_neg h5]
    by_cases hcl : ∃ p ∈ GolList.pairList 3 3,
        ((0 + p.1) % deadGrid64.height) * deadGrid64.width +
          (0 + p.2) % deadGrid64.width = k
    · have hdead := Universe.stamp_clear_getD_cleared deadGrid64
        Universe.gliderOffsets 0 0 3 3 k Cell.Dead (hnot h5) hcl hlt
      rw [hdead]
      rfl
    · have houtside := Universe.stamp_clear_getD_outside deadGrid64
        Universe.gliderOffsets 0 0 3 3 k Cell.Dead (hnot h5) hcl
      rw [houtside]
      have hbase : deadGrid64.cells.getD k Cell.Dead = Cell.Dead := by
        rw [show deadGrid64.cells = List.replicate 4096 Cell.Dead from rfl,
          List.getD_eq_getElem?_getD, List.getElem?_replicate,
          if_pos hk]
        rfl
      rw [hbase]
      rfl

theorem gliderStamped_enc : GolBits.encCells gliderStamped.cells = S0g := by
  apply GolBits.nat_eq_of_bits 4096
  · have h := GolBits.encCells_lt gliderStamped.cells
    rwa [gliderStamped_len] at h
  · have h1 : S0g < 2 ^ 131 := by decide
    have h2 : (2 : Nat) ^ 131 ≤ 2 ^ 4096 :=
      Nat.pow_le_pow_right (by omega) (by omega)
    exact Nat.lt_of_lt_of_le h1 h2
  · intro k hk
    rw [GolBits.encCells_bit, gliderStamped_char k hk]
    have hblt : GolBits.blt (fun x =>
        (if x = 1 ∨ x = 66 ∨ x = 128 ∨ x = 129 ∨ x = 130 then 1 else 0) ==
          GolBits.bitAt S0g x) 12 0 = true := by decide
    have h12 : (2 : Nat) ^ 12 = 4096 := by norm_num
    have h := GolBits.blt_sound _ 12 0 hblt k (by omega)
    simp only [Nat.zero_mul, Nat.zero_add] at h
    have h' := (beq_iff_eq).mp h
    rwa [GolBits.bitAt_eq] at h'

theorem glider_four_ticks_enc :
    GolBits.encCells
      gliderStamped.tick.tick.tick.tick.cells = S4g := by
  have i1 := gliderStamped_Inv
  have i2 := Universe.tick_Inv _ i1
  have i3 := Universe.tick_Inv _ i2
  have i4 := Universe.tick_Inv _ i3
  rw [GolBits.tick_encCells _ i4 rfl rfl,
    GolBits.tick_encCells _ i3 rfl rfl,
    GolBits.tick_encCells _ i2 rfl rfl,
    GolBits.tick_encCells _ i1 rfl rfl,
    gliderStamped_enc]
  decide

/-- C8: stamping `"glider"` at `(0, 0)` on an all-dead 64×64 grid and
ticking four times yields the same 5-cell glider translated by `(1, 1)`:
exactly the cells (1,2), (2,3), (3,1), (3,2), (3,3) are alive. -/
theorem C8_glider_translation :
    ∃ u1, Universe.set_pattern deadGrid64 "glider" 0 0 = some u1 ∧
      ∀ i, i < 64 → ∀ j, j < 64 →
        (u1.tick.tick.tick.tick.cells.getD (i * 64 + j) Cell.Dead
            = Cell.Alive ↔
          (i, j) ∈ [(1, 2), (2, 3), (3, 1), (3, 2), (3, 3)]) := by
  refine ⟨gliderStamped, ?_, ?_⟩
  · unfold Universe.set_pattern
    rw [if_pos rfl, if_neg (by decide)]
    rfl
  · intro i hi j hj
    have hk : i * 64 + j < 4096 := by omega
    have hvalne : ∀ cell : Cell, cell = Cell.Alive ↔ cell.val = 1 := by
      intro cell
      cases cell <;> simp [Cell.val]
    rw [hvalne, ← GolBits.encCells_bit, glider_four_ticks_enc]
    have hblt4 : GolBits.blt (fun x => decide ((GolBits.bitAt S4g x = 1) ↔
        (x / 64, x % 64) ∈ [(1, 2), (2, 3), (3, 1), (3, 2), (3, 3)]))
        12 0 = true := by decide
    have h12 : (2 : Nat) ^ 12 = 4096 := by norm_num
    have h := GolBits.blt_sound _ 12 0 hblt4 (i * 64 + j) (by omega)
    simp only [Nat.zero_mul, Nat.zero_add] at h
    have h' := of_decide_eq_true h
    rw [GolBits.bitAt_eq] at h'
    have hdiv : (i * 64 + j) / 64 = i := by omega
    have hmod : (i * 64 + j) % 64 = j := by omega
    rwa [hdiv, hmod] at h'
